import Mathlib

/-!
Shallow embedding of the flow-field simulation engine of the
`nannou-sandbox` repository (crates `vector_field` and the older binary
`src/bin/vector_field.rs`), together with proofs settling the frozen
claims about its specification.

Conventions of the embedding:
- `f32`/`f64` arithmetic is modelled over `ℝ` (the claims are stated up to
  floating-point tolerance); `usize` counters over `ℕ` with explicit
  wrapping (`% 2 ^ 64`) where Rust's release-mode wrapping matters;
  the `i32` loop bounds of the sampling loops over `ℤ`.
- The Perlin noise object (`Rc<dyn NoiseFn<[f64; 3]>>`) is an abstract
  pure function `ℝ → ℝ → ℝ → ℝ`, exactly as the code treats it: it is
  only ever called through `get`.
- Randomness (`random_range`, `random`) is modelled as an injected stream
  of pre-drawn values: `reset` receives a function `ℕ → ℝ × ℝ × Color`
  providing the draw for each pushed particle.
-/

/-! ## Time controller (src/vector_field/src/main.rs, `update` and `noise_z`) -/

/-- The pause/run state of the model: `running` and `reference_time`
(fields `running: bool` and `reference_time: f32` of `Model`). -/
structure TimeState where
  running : Bool
  reference_time : ℝ

/-- The Run/Pause button handler, main.rs lines 164-170:
`model.reference_time = app.time * model.speed - model.reference_time;`
then `model.running = !model.running;`. `time` is `app.time`. -/
def toggleRunning (time speed : ℝ) (st : TimeState) : TimeState :=
  { running := !st.running
    reference_time := time * speed - st.reference_time }

/-- Function `noise_z`, main.rs lines 215-221: the effective time
coordinate fed to the noise field. -/
def noise_z (time speed : ℝ) (st : TimeState) : ℝ :=
  if st.running then time * speed - st.reference_time else st.reference_time

/-- C1: toggling Running → Paused (at wall time `t1`) → Running (at wall
time `t2`), with speed unchanged in between, restores the running state
and leaves the effective time coordinate returned by `noise_z` unchanged
across the round trip: after resuming it equals the value it had at the
moment of pausing. -/
theorem c1_time_continuity (t1 t2 speed r : ℝ) :
    (toggleRunning t2 speed (toggleRunning t1 speed ⟨true, r⟩)).running = true ∧
    noise_z t2 speed (toggleRunning t2 speed (toggleRunning t1 speed ⟨true, r⟩)) =
      noise_z t1 speed ⟨true, r⟩ := by
  refine ⟨rfl, ?_⟩
  simp only [toggleRunning, noise_z, Bool.not_true, Bool.not_false, if_true]
  ring

/-! ## Grid sampling loop (main.rs `view`, lines 234-235; same loop in
src/bin/vector_field.rs lines 245-246) -/

/-- The iterates of Rust's `(lo..hi).step_by(step)` over `i32` bounds:
the values `lo + k` for `0 ≤ k < hi - lo` with `k` a multiple of `step`.
These are the `canvas_x` (resp. `canvas_y`) values visited by the
sampling loop in `view`. -/
def stepByList (lo hi : ℤ) (step : ℕ) : List ℤ :=
  ((List.range (hi - lo).toNat).filter (fun k => k % step == 0)).map
    (fun (k : ℕ) => lo + (k : ℤ))

/-- Number of grid columns produced by the outer loop of `view`
(`win.left() as i32 .. win.right() as i32`, stepped by `step`). -/
def gridCols (left right : ℤ) (step : ℕ) : ℕ :=
  (stepByList left right step).length

/-- Number of grid rows produced by the inner loop of `view`
(`win.bottom() as i32 .. win.top() as i32`, stepped by `step`). -/
def gridRows (bottom top : ℤ) (step : ℕ) : ℕ :=
  (stepByList bottom top step).length

theorem range_filter_mod_length (s : ℕ) (n : ℕ) :
    ((List.range (n + 1)).filter (fun k => k % s == 0)).length = n / s + 1 := by
  induction n with
  | zero => simp [List.range_succ]
  | succ n ih =>
    rw [List.range_succ, List.filter_append, List.length_append, ih]
    by_cases h : (n + 1) % s = 0
    · have hdvd : s ∣ n + 1 := Nat.dvd_of_mod_eq_zero h
      rw [Nat.succ_div, if_pos hdvd]
      simp [h]
    · have hndvd : ¬ s ∣ n + 1 := by
        intro hd
        obtain ⟨c, hc⟩ := hd
        exact h (by rw [hc]; exact Nat.mul_mod_right s c)
      rw [Nat.succ_div, if_neg hndvd]
      simp [h]

/-- C2 counterexample: on a 200×100 canvas region with `step = 50` the
sampling loops produce 4 columns and 2 rows, refuting the claimed
`floor(200/50)+1 = 5` columns and `floor(100/50)+1 = 3` rows (the Rust
range `lo..hi` excludes `hi`, so the right/top edge is never sampled). -/
theorem c2_grid_dimensions_counterexample :
    gridCols (-100) 100 50 = 4 ∧ gridRows (-50) 50 50 = 2 ∧
    ¬ (gridCols (-100) 100 50 = 200 / 50 + 1 ∧ gridRows (-50) 50 50 = 100 / 50 + 1) := by
  decide

/-- C2 amended: for every region with `lo < hi` and every `step ≥ 1`, the
number of sampled positions per axis is `ceil((hi-lo)/step)`, i.e.
`floor((hi-lo-1)/step) + 1` — not `floor((hi-lo)/step) + 1`; the two
formulas agree exactly when `step` does not divide the extent. For the
200×100 region with step 50 the grid is therefore 4 × 2. -/
theorem c2_grid_dimensions_amended (left right bottom top : ℤ) (step : ℕ)
    (hx : left < right) (hy : bottom < top) (hs : 1 ≤ step) :
    gridCols left right step = ((right - left).toNat - 1) / step + 1 ∧
    gridRows bottom top step = ((top - bottom).toNat - 1) / step + 1 := by
  have key : ∀ lo hi : ℤ, lo < hi →
      (stepByList lo hi step).length = ((hi - lo).toNat - 1) / step + 1 := by
    intro lo hi hlt
    obtain ⟨m, hm⟩ : ∃ m, (hi - lo).toNat = m + 1 := ⟨(hi - lo).toNat - 1, by omega⟩
    unfold stepByList
    rw [List.length_map, hm, range_filter_mod_length, Nat.add_sub_cancel]
  exact ⟨key left right hx, key bottom top hy⟩

/-- Witness for `c2_grid_dimensions_amended` at the 200×100 region with
step 50. -/
theorem c2_grid_dimensions_witness :
    (((-100 : ℤ) < 100 ∧ (-50 : ℤ) < 50 ∧ 1 ≤ 50) ∧
      gridCols (-100) 100 50 = ((100 - (-100) : ℤ).toNat - 1) / 50 + 1 ∧
      gridRows (-50) 50 50 = ((50 - (-50) : ℤ).toNat - 1) / 50 + 1) :=
  ⟨by decide,
    c2_grid_dimensions_amended (-100) 100 (-50) 50 50 (by decide) (by decide) (by decide)⟩

/-! ## Canvas rectangles and noise-coordinate normalization -/

/-- A canvas rectangle (nannou `Rect`), as used for the window rect and the
particle container. -/
structure Rect where
  left : ℝ
  right : ℝ
  bottom : ℝ
  top : ℝ

/-- Width of a rect, nannou `Rect::w()`. -/
def Rect.w (r : Rect) : ℝ := r.right - r.left

/-- Height of a rect, nannou `Rect::h()`. -/
def Rect.h (r : Rect) : ℝ := r.top - r.bottom

/-- The noise angle computed per grid cell by `view` in
src/vector_field/src/main.rs lines 236-243: `perlin_x`/`perlin_y`
normalization followed by the noise sample scaled by `max_angle`. -/
noncomputable def gridNoiseAngle (noise : ℝ → ℝ → ℝ → ℝ) (win : Rect)
    (frequency perlin_z max_angle canvas_x canvas_y : ℝ) : ℝ :=
  let perlin_x := (win.right - canvas_x) / win.w
  let perlin_y := (win.top - canvas_y) / win.h
  noise (perlin_x * frequency) (perlin_y * frequency) perlin_z * max_angle

/-- The noise angle computed per particle by `SimpleParticleSystem::update`
in src/vector_field/src/particles/simple.rs lines 84-92: `perlin_x`/`perlin_y`
normalization against the container followed by the noise sample scaled by
`max_angle`. -/
noncomputable def particleNoiseAngle (noise : ℝ → ℝ → ℝ → ℝ) (container : Rect)
    (frequency noise_z max_angle x y : ℝ) : ℝ :=
  let perlin_x := (container.right - x) / container.w
  let perlin_y := (container.top - y) / container.h
  noise (perlin_x * frequency) (perlin_y * frequency) noise_z * max_angle

/-- Rotation of a 2D vector by an angle in radians (nannou's
`Vec2Rotate::rotate`). -/
noncomputable def rotateVec (v : ℝ × ℝ) (radians : ℝ) : ℝ × ℝ :=
  (v.1 * Real.cos radians - v.2 * Real.sin radians,
   v.1 * Real.sin radians + v.2 * Real.cos radians)

/-- Componentwise scalar multiplication of a `Vec2` (`v * k`). -/
def vecScale (v : ℝ × ℝ) (k : ℝ) : ℝ × ℝ := (v.1 * k, v.2 * k)

/-! ## SimpleParticleSystem (src/vector_field/src/particles/simple.rs) -/

/-- A particle: position and an sRGB color with `u8` channels (struct
`Particle` in simple.rs). -/
structure Particle where
  x : ℝ
  y : ℝ
  color : ℕ × ℕ × ℕ

/-- Struct `SimpleParticleSystem`. The noise trait object is an abstract
pure function field. -/
structure SimpleParticleSystem where
  particles : List Particle
  noise : ℝ → ℝ → ℝ → ℝ
  container : Rect
  count : ℕ
  move_delta : ℝ
  default_size : ℝ

/-- Method `reset` (simple.rs lines 69-81): rebuild the particle list by
pushing `count` particles with freshly drawn position and color. The
random draws (`random_range` for x and y, `random` for the color) are
modelled by the injected stream `rng` giving the draw for the `i`-th
pushed particle. -/
def SimpleParticleSystem.reset (s : SimpleParticleSystem)
    (rng : ℕ → ℝ × ℝ × (ℕ × ℕ × ℕ)) : SimpleParticleSystem :=
  { s with
      particles := (List.range s.count).map
        (fun i => { x := (rng i).1, y := (rng i).2.1, color := (rng i).2.2 }) }

/-- Method `update` (simple.rs lines 82-97): advect every particle by
`move_delta` along the heading obtained by rotating `(1, 0)` by the noise
angle. -/
noncomputable def SimpleParticleSystem.update (s : SimpleParticleSystem)
    (noise_z frequency max_angle : ℝ) : SimpleParticleSystem :=
  { s with
      particles := s.particles.map (fun particle =>
        let noise_angle :=
          particleNoiseAngle s.noise s.container frequency noise_z max_angle
            particle.x particle.y
        let gradient := vecScale (rotateVec (1, 0) noise_angle) s.move_delta
        { particle with
            x := particle.x + gradient.1
            y := particle.y + gradient.2 }) }

/-- Method `config_gui` (simple.rs lines 107-122): the three `DragValue`
widgets mutate `count`, `move_delta` and `default_size` in place; nothing
else changes — in particular the particle list is untouched. -/
def SimpleParticleSystem.config_gui (s : SimpleParticleSystem)
    (count : ℕ) (move_delta default_size : ℝ) : SimpleParticleSystem :=
  { s with count := count, move_delta := move_delta, default_size := default_size }

/-- A concrete particle system used to instantiate universally
quantified theorems: one particle at the origin, a constantly-zero noise
field, a 200×100 container and the default particle count of 1000. -/
def sampleSystem : SimpleParticleSystem where
  particles := [{ x := 0, y := 0, color := (0, 0, 0) }]
  noise := fun _ _ _ => 0
  container := { left := -100, right := 100, bottom := -50, top := 50 }
  count := 1000
  move_delta := 2
  default_size := 2

/-- C3 counterexample: starting from a system configured with
`count = 1000`, `reset()` produces 1000 particles, but then lowering the
count to 10 through `config_gui` leaves the particle list at length 1000,
not 10 — `config_gui` only mutates the config fields and no truncation
happens before the next `reset()`. -/
theorem c3_particle_count_counterexample :
    ((sampleSystem.reset (fun _ => (0, 0, (0, 0, 0)))).config_gui 10 2 2).particles.length
        = 1000 ∧
    (1000 : ℕ) ≠ 10 := by
  constructor
  · unfold sampleSystem SimpleParticleSystem.reset SimpleParticleSystem.config_gui
    dsimp only
    rw [List.length_map, List.length_range]
  · decide

/-- C3 amended: `reset()` always produces exactly `count` particles;
reconfiguring through `config_gui` changes only the config fields and
leaves the existing particle list untouched (no truncation), and the new
count takes effect at the next `reset()`, after which the length is
exactly the new value. -/
theorem c3_particle_count_amended (s : SimpleParticleSystem)
    (rng : ℕ → ℝ × ℝ × (ℕ × ℕ × ℕ)) (n : ℕ) (md sz : ℝ) :
    (s.reset rng).particles.length = s.count ∧
    ((s.config_gui n md sz).particles = s.particles) ∧
    (((s.config_gui n md sz).reset rng).particles.length = n) := by
  refine ⟨?_, rfl, ?_⟩ <;>
    simp [SimpleParticleSystem.reset, SimpleParticleSystem.config_gui]

/-- C4: one `update` step maps every particle at `(x, y)` to
`(x, y) + move_delta * (cos angle, sin angle)` where `angle` is the noise
sample at the normalized position scaled by `frequency`, multiplied by
`max_angle`; the color is unchanged. -/
theorem c4_particle_advance (s : SimpleParticleSystem)
    (noise_z frequency max_angle : ℝ) :
    (s.update noise_z frequency max_angle).particles =
      s.particles.map (fun p =>
        { x := p.x + s.move_delta *
            Real.cos (particleNoiseAngle s.noise s.container frequency noise_z
              max_angle p.x p.y)
          y := p.y + s.move_delta *
            Real.sin (particleNoiseAngle s.noise s.container frequency noise_z
              max_angle p.x p.y)
          color := p.color }) := by
  unfold SimpleParticleSystem.update
  dsimp only
  congr 1
  funext p
  dsimp only [rotateVec, vecScale]
  congr 1 <;> ring

/-- C5: the grid sampler of `view` and the particle advection of
`SimpleParticleSystem::update` apply the same canvas-to-noise
normalization: on the same rectangle both compute the angle
`noise((right - x)/width * frequency, (top - y)/height * frequency, z) *
max_angle`, so a particle at a cell's position receives the same angle as
that cell. -/
theorem c5_same_normalization (noise : ℝ → ℝ → ℝ → ℝ) (r : Rect)
    (frequency z max_angle x y : ℝ) :
    particleNoiseAngle noise r frequency z max_angle x y =
      gridNoiseAngle noise r frequency z max_angle x y ∧
    gridNoiseAngle noise r frequency z max_angle x y =
      noise ((r.right - x) / r.w * frequency) ((r.top - y) / r.h * frequency) z
        * max_angle :=
  ⟨rfl, rfl⟩

/-- C6: with `max_angle = 0` the angle computed for every cell (and every
particle) is exactly 0, whatever the noise sample, position, time and
frequency are: the angle is the noise sample times `max_angle`, with no
additive bias. -/
theorem c6_zero_max_angle (noise : ℝ → ℝ → ℝ → ℝ) (win : Rect)
    (frequency z x y : ℝ) :
    gridNoiseAngle noise win frequency z 0 x y = 0 ∧
    particleNoiseAngle noise win frequency z 0 x y = 0 := by
  constructor <;> simp [gridNoiseAngle, particleNoiseAngle]

/-- C7: particle advection is deterministic — `update` draws no per-call
randomness, so two systems agreeing on the particle list, noise field,
container and `move_delta` produce identical particle lists under the
same `(noise_z, frequency, max_angle)`. -/
theorem c7_advection_deterministic (s1 s2 : SimpleParticleSystem)
    (noise_z frequency max_angle : ℝ)
    (hp : s1.particles = s2.particles) (hn : s1.noise = s2.noise)
    (hc : s1.container = s2.container) (hm : s1.move_delta = s2.move_delta) :
    (s1.update noise_z frequency max_angle).particles =
      (s2.update noise_z frequency max_angle).particles := by
  unfold SimpleParticleSystem.update
  dsimp only
  rw [hp, hn, hc, hm]

/-- Witness for `c7_advection_deterministic` at the concrete system
`sampleSystem` against itself. -/
theorem c7_advection_deterministic_witness :
    (sampleSystem.particles = sampleSystem.particles ∧
      sampleSystem.noise = sampleSystem.noise ∧
      sampleSystem.container = sampleSystem.container ∧
      sampleSystem.move_delta = sampleSystem.move_delta) ∧
    (sampleSystem.update 0 1 1).particles =
      (sampleSystem.update 0 1 1).particles :=
  ⟨⟨rfl, rfl, rfl, rfl⟩,
    c7_advection_deterministic sampleSystem sampleSystem 0 1 1 rfl rfl rfl rfl⟩

/-! ## Per-cell noise coordinates (C8) -/

theorem range_filter_mod_eq_range' (s : ℕ) (hs : 0 < s) (n : ℕ) :
    (List.range n).filter (fun k => k % s == 0) =
      List.range' 0 ((n + s - 1) / s) s := by
  induction n with
  | zero =>
    have h0 : (s - 1) / s = 0 := Nat.div_eq_of_lt (by omega)
    simp [h0]
  | succ n ih =>
    rw [List.range_succ, List.filter_append, ih]
    by_cases h : n % s = 0
    · obtain ⟨q, hq⟩ := Nat.dvd_of_mod_eq_zero h
      have h1 : (n + 1 + s - 1) / s = n / s + 1 := by
        have e : n + 1 + s - 1 = n + s := by omega
        rw [e, Nat.add_div_right _ hs]
      have h2 : (n + s - 1) / s = n / s := by
        have e : n + s - 1 = s * q + (s - 1) := by omega
        rw [e, Nat.mul_add_div hs, Nat.div_eq_of_lt (by omega), hq,
          Nat.mul_div_cancel_left q hs]
        omega
      rw [h1, h2, List.range'_concat]
      have h3 : s * (n / s) = n := Nat.mul_div_cancel' (Nat.dvd_of_mod_eq_zero h)
      simp [h, h3]
    · have hn1 : 1 ≤ n := by
        rcases Nat.eq_zero_or_pos n with h0 | h1
        · exact absurd (h0 ▸ Nat.zero_mod s) h
        · exact h1
      have hndvd : ¬ s ∣ n := by
        intro hd
        obtain ⟨c, hc⟩ := hd
        exact h (by rw [hc]; exact Nat.mul_mod_right s c)
      have h1 : (n + 1 + s - 1) / s = (n + s - 1) / s := by
        have e1 : n + 1 + s - 1 = n + s := by omega
        have e2 : n + s - 1 = (n - 1) + s := by omega
        have e3 : n = (n - 1) + 1 := by omega
        rw [e1, e2, Nat.add_div_right _ hs, Nat.add_div_right _ hs]
        have := Nat.succ_div_of_not_dvd (a := n - 1) (b := s) (by rw [← e3]; exact hndvd)
        rw [← e3] at this
        rw [this]
      rw [h1]
      simp [h]

/-- The sampling loop visits, as its `i`-th iterate per axis, the canvas
position `lo + i * step`: Rust's `(lo..hi).step_by(step)` semantics. -/
theorem stepByList_getElem (lo hi : ℤ) (step : ℕ) (hs : 0 < step) (i : ℕ)
    (h : i < (stepByList lo hi step).length) :
    (stepByList lo hi step).get ⟨i, h⟩ = lo + (i * step : ℕ) := by
  have e : stepByList lo hi step =
      (List.range' 0 (((hi - lo).toNat + step - 1) / step) step).map
        (fun (k : ℕ) => lo + (k : ℤ)) := by
    unfold stepByList
    rw [range_filter_mod_eq_range' step hs]
  have h' : i < ((List.range' 0 (((hi - lo).toNat + step - 1) / step) step).map
      (fun (k : ℕ) => lo + (k : ℤ))).length := by
    rw [← e]; exact h
  rw [List.get_of_eq e ⟨i, h⟩]
  rw [List.get_eq_getElem, List.getElem_map, List.getElem_range']
  push_cast
  ring

/-- Noise coordinates sampled for grid cell `(i, j)` by `view` in
src/vector_field/src/main.rs lines 234-242: the `i`-th column iterate is
`canvas_x = win.left + i*step` (see `stepByList_getElem`), the `j`-th row
iterate is `canvas_y = win.bottom + j*step`, and the coordinates passed
to `noise.get` are `perlin_x * frequency` and `perlin_y * frequency`. -/
noncomputable def cellNoiseCoords (win : Rect) (frequency : ℝ) (step : ℕ)
    (i j : ℕ) : ℝ × ℝ :=
  let canvas_x : ℝ := win.left + (i * step : ℕ)
  let canvas_y : ℝ := win.bottom + (j * step : ℕ)
  (((win.right - canvas_x) / win.w) * frequency,
   ((win.top - canvas_y) / win.h) * frequency)

/-- Modelled from the spec: the mapping asserted by the claim, namely that
cell `(i, j)` of a grid of dimensions `gridW × gridH` samples noise
coordinates `(i/gridW, j/gridH)` scaled by the frequency factor. Stated
for comparison against `cellNoiseCoords`, which is what the code
computes. -/
noncomputable def specCellNoiseCoords (gridW gridH : ℕ) (frequency : ℝ)
    (i j : ℕ) : ℝ × ℝ :=
  (((i : ℝ) / gridW) * frequency, ((j : ℝ) / gridH) * frequency)

/-- C8 counterexample: the 200×100 canvas with step 50 and the 399×199
canvas with step 100 produce the same grid dimensions (4 × 2), yet cell
`(1, 0)` samples noise x-coordinate `3/4` on the first canvas and
`299/399` on the second — the sampled coordinates depend on the absolute
canvas size. Moreover `3/4` differs from the claimed `i/gridW = 1/4`. -/
theorem c8_cell_coords_counterexample :
    (gridCols (-100) 100 50 = gridCols 0 399 100 ∧
      gridRows (-50) 50 50 = gridRows 0 199 100) ∧
    (cellNoiseCoords { left := -100, right := 100, bottom := -50, top := 50 }
        1 50 1 0).1 ≠
      (specCellNoiseCoords 4 2 1 1 0).1 ∧
    (cellNoiseCoords { left := -100, right := 100, bottom := -50, top := 50 }
        1 50 1 0).1 ≠
      (cellNoiseCoords { left := 0, right := 399, bottom := 0, top := 199 }
        1 100 1 0).1 := by
  refine ⟨by decide, ?_, ?_⟩ <;>
    · simp only [cellNoiseCoords, specCellNoiseCoords, Rect.w]
      norm_num

/-- C8 amended: cell `(i, j)` samples the noise coordinates
`((w - i*step)/w * frequency, (h - j*step)/h * frequency)` where `w`, `h`
are the absolute canvas dimensions — the normalization divides by the
canvas size, so the sampled coordinates are coupled to the canvas size
and are 1-based from the right/top edge, not `(i/gridW, j/gridH)`. -/
theorem c8_cell_coords_amended (win : Rect) (frequency : ℝ) (step : ℕ)
    (i j : ℕ) :
    cellNoiseCoords win frequency step i j =
      (((win.w - (i * step : ℕ)) / win.w) * frequency,
       ((win.h - (j * step : ℕ)) / win.h) * frequency) := by
  simp only [cellNoiseCoords, Rect.w, Rect.h, Prod.mk.injEq]
  constructor <;> ring_nf

/-! ## Heatmap cell colors (C9) -/

/-- Enum `AngleColor` of src/vector_field/src/main.rs (variants `Gray` and
`HSV`, shown as "Gray" and "Hue" in the combo box). -/
inductive AngleColor
  | Gray
  | HSV

/-- A color handed to `draw.rect().color(...)`, before conversion to
linear sRGB: either an `Rgb::new(r, g, b)` or an `Hsv::new(h, s, v)`
constructor call with the given channel values. -/
inductive PaintColor
  | rgb (r g b : ℝ)
  | hsv (h s v : ℝ)

/-- The heatmap cell color computed by `view` in
src/vector_field/src/main.rs lines 247-256 when "show values" is enabled:
in `Gray` mode the luminance `(cos(angle) + 1) / 2` on all three
channels, in `HSV` mode the hue `angle * 360 / (2π)` with saturation and
value 1. -/
noncomputable def heatmapCellColor (angle_color : AngleColor)
    (noise_angle : ℝ) : PaintColor :=
  match angle_color with
  | AngleColor.Gray =>
      let gray := (Real.cos noise_angle + 1) / 2
      PaintColor.rgb gray gray gray
  | AngleColor.HSV =>
      PaintColor.hsv (noise_angle * 360 / (2 * Real.pi)) 1 1

/-- The heatmap cell color computed by `view` in
src/src/bin/vector_field.rs lines 257-266 when "show values" is enabled:
`Rgb::new(noise_angle, noise_angle, noise_angle)` — the raw angle used
directly as all three color channels, with no mode selection. -/
noncomputable def heatmapCellColorBin (noise_angle : ℝ) : PaintColor :=
  PaintColor.rgb noise_angle noise_angle noise_angle

/-- C9 counterexample: the claim does not hold in every code variant that
renders the heatmap: for the cell angle `0`, the heatmap color of the
`src/bin/vector_field.rs` variant is `rgb(0, 0, 0)`, not the claimed
grayscale luminance `(cos 0 + 1)/2 = 1` on all channels (and that variant
offers no hue mode at all). -/
theorem c9_heatmap_color_counterexample :
    heatmapCellColorBin 0 ≠
      PaintColor.rgb ((Real.cos 0 + 1) / 2) ((Real.cos 0 + 1) / 2)
        ((Real.cos 0 + 1) / 2) := by
  simp only [heatmapCellColorBin, Real.cos_zero, ne_eq, PaintColor.rgb.injEq]
  norm_num

/-- C9 amended: in the `vector_field` crate's `view` (the only variant
with selectable color modes), the grayscale mode paints
`(cos(angle)+1)/2` on all three channels and the hue mode maps the angle
linearly from radians to degrees of hue (`angle * 360 / (2π)`) at full
saturation and value; the older `src/bin/vector_field.rs` variant instead
paints the raw angle as all three RGB channels. -/
theorem c9_heatmap_color_amended (a : ℝ) :
    heatmapCellColor AngleColor.Gray a =
      PaintColor.rgb ((Real.cos a + 1) / 2) ((Real.cos a + 1) / 2)
        ((Real.cos a + 1) / 2) ∧
    heatmapCellColor AngleColor.HSV a =
      PaintColor.hsv (a * 360 / (2 * Real.pi)) 1 1 ∧
    heatmapCellColorBin a = PaintColor.rgb a a a :=
  ⟨rfl, rfl, rfl⟩

/-! ## Arrow width subtraction (C10) -/

/-- Rust `usize` subtraction under release-mode (wrapping) semantics:
`a - b` computed modulo `2^64` for operands already reduced modulo
`2^64`. -/
def usizeSub (a b : ℕ) : ℕ := (a % 2 ^ 64 + (2 ^ 64 - b % 2 ^ 64)) % 2 ^ 64

/-- Whether evaluating `a - b` on `usize` underflows (the mathematical
difference is negative, which panics in debug builds and wraps in
release builds). -/
def subUnderflows (a b : ℕ) : Bool := decide (a < b)

/-- The set of `step_sample` values accepted by the Steps slider,
`egui::Slider::new(&mut model.step_sample, 1..=100)` (main.rs line 136
and src/bin/vector_field.rs line 200). -/
def stepSliderAccepts (n : ℕ) : Bool := decide (1 ≤ n) && decide (n ≤ 100)

/-- C10: evaluation at the failing input. `step_sample = 1` is accepted
by the Steps slider, yet the arrow-width computation `(step - 2)` in
`view` underflows there: in release builds it wraps to `2^64 - 1`
(and in debug builds it panics), so `step_sample ≥ 2` does not always
hold when the subtraction is evaluated. For every accepted value with
`step ≥ 2` the subtraction is safe. -/
theorem c10_arrow_width_underflow :
    stepSliderAccepts 1 = true ∧
    subUnderflows 1 2 = true ∧
    usizeSub 1 2 = 2 ^ 64 - 1 ∧
    (∀ n : ℕ, stepSliderAccepts n = true → 2 ≤ n →
      subUnderflows n 2 = false ∧ usizeSub n 2 = n - 2) := by
  refine ⟨by decide, by decide, by decide, ?_⟩
  intro n hacc h2
  have h100 : n ≤ 100 := by
    have := of_decide_eq_true (Bool.and_elim_right hacc)
    exact this
  constructor
  · simp only [subUnderflows, decide_eq_false_iff_not, not_lt]
    exact h2
  · unfold usizeSub
    have e1 : n % 2 ^ 64 = n := Nat.mod_eq_of_lt (by omega)
    have e2 : (2 : ℕ) % 2 ^ 64 = 2 := by decide
    rw [e1, e2]
    have e3 : n + (2 ^ 64 - 2) = (n - 2) + 2 ^ 64 := by omega
    rw [e3, Nat.add_mod_right, Nat.mod_eq_of_lt (by omega)]
